import Mathlib

/-!
Verification development for the `forensics` in-process diagnostics engine
(`src/forensics.cpp`).  The C code is shallowly embedded: C strings become
Lean `String`s (one byte per character; `strlen` is the character count),
machine integers become `Nat`/`Int` (with explicit `% 2^32` where unsigned
wraparound matters), buffers of packed bytes become lists of the records the
bytes encode together with the exact cursor/size arithmetic of the source,
and the global mutable state becomes explicit state records threaded through
the operations.  Unbounded C loops are given an explicit fuel parameter; a
`none` result for every fuel value witnesses non-termination of the loop.
-/

namespace Forensics

/-- Size of `strlen(s) + 1`, the number of bytes a NUL-terminated C string
occupies in a packed buffer (all inputs considered here are single-byte
characters). -/
def strSize (s : String) : Nat := s.data.length + 1

/-- Value of `sizeof(char**)` on the 64-bit targets the code is built for. -/
def ptrSize : Nat := 8

/-- Configuration record mirroring `forensics_config_t` (forensics.h).
The allocator and handler callbacks play no role in the verified state
machine and are omitted; all capacity fields are kept. -/
structure Config where
  fatal_should_halt : Bool
  max_id_size_bytes : Nat
  max_context_depth : Nat
  max_formatted_message_size_bytes : Nat
  max_attribute_count : Nat
  attribute_buf_size_bytes : Nat
  max_backtrace_count : Nat
  max_breadcrumb_count : Nat
  breadcrumb_buf_size_bytes : Nat
  deriving Repr, DecidableEq

/-- Default configuration written by `forensics_config_init`
(forensics.cpp lines 246-262 and the DEFAULT_* macros). -/
def forensics_config_init : Config where
  fatal_should_halt := true
  max_id_size_bytes := 512
  max_context_depth := 128
  max_formatted_message_size_bytes := 1024
  max_attribute_count := 128
  attribute_buf_size_bytes := 4096
  max_backtrace_count := 256
  max_breadcrumb_count := 128
  breadcrumb_buf_size_bytes := 4096

/-! ## Packed attribute store

The C store keeps parallel pointer arrays `s_attribute_keys` /
`s_attribute_values` into one packed byte region `s_attribute_buf`, plus
`s_attribute_count` and `s_attribute_buf_used`.  The embedding keeps the
entries (in pointer-array order, which equals packing order) as a list of
key/value pairs together with the byte accounting; the byte positions
themselves are determined by the packing order and carry no further
information. -/

structure AttrState where
  entries : List (String × String)
  bufUsed : Nat
  deriving Repr, DecidableEq

/-- Initial attribute store after `forensics_init`. -/
def attr_init : AttrState := ⟨[], 0⟩

/-- Packed size in bytes of one attribute entry:
`strlen(key) + 1 + strlen(value) + 1` (forensics.cpp lines 91-93). -/
def attrEntrySize (e : String × String) : Nat := strSize e.1 + strSize e.2

/-- Index of the first entry whose key equals `key`, mirroring
`attribute_find` (forensics.cpp lines 79-86); `none` is the C `-1`. -/
def attribute_find (key : String) (s : AttrState) : Option Nat :=
  s.entries.findIdx? (fun e => e.1 = key)

/-- Removal of the entry at `index`, mirroring `attribute_clear`
(forensics.cpp lines 88-107): the byte hole is closed by shifting all
subsequent bytes left and every later key/value pointer is rebased, which
on the entry list is exactly `eraseIdx`.  NOTE (faithful to the source):
`attribute_clear` never subtracts `size_bytes` from `s_attribute_buf_used`,
so `bufUsed` is left unchanged here. -/
def attribute_clear (index : Nat) (s : AttrState) : AttrState :=
  { s with entries := s.entries.eraseIdx index }

/-- Append of a new entry, mirroring `attribute_append` (forensics.cpp
lines 109-139).  The two `FORENSICS_ASSERTF` capacity checks are modelled
as `none` (the assertion routes into the fatal report path). -/
def attribute_append (cfg : Config) (key value : String) (s : AttrState) :
    Option AttrState :=
  if s.entries.length < cfg.max_attribute_count then
    let size_bytes := strSize key + strSize value
    let avail : Int := (cfg.attribute_buf_size_bytes : Int) - (s.bufUsed : Int)
    if avail ≥ (size_bytes : Int) then
      some { entries := s.entries ++ [(key, value)], bufUsed := s.bufUsed + size_bytes }
    else none
  else none

/-- Public `forensics_set_attribute` (forensics.cpp lines 471-493);
`value = none` is the C `nullptr` clear request.  A `none` result is the
capacity assertion firing inside `attribute_append`. -/
def forensics_set_attribute (cfg : Config) (key : String) (value : Option String)
    (s : AttrState) : Option AttrState :=
  if cfg.max_attribute_count = 0 then some s
  else
    match value with
    | none =>
      match attribute_find key s with
      | some index => some (attribute_clear index s)
      | none => some s
    | some v =>
      let s' := match attribute_find key s with
                | some index => attribute_clear index s
                | none => s
      attribute_append cfg key v s'

/-- Lookup of the value stored for `key` (first match, as `attribute_find`
followed by reading `s_attribute_values[index]`). -/
def attr_lookup (key : String) (s : AttrState) : Option String :=
  (s.entries.find? (fun e => e.1 = key)).map (fun e => e.2)

/-! ## Breadcrumb ring buffer

The C engine keeps a fixed array `s_breadcrumbs` of `max_breadcrumb_count`
slots (`breadcrumb_t` = a `forensics_breadcrumb_t` plus the packed byte
size of its payload), a logical FIFO given by `s_breadcrumbs_index_next`
and `s_breadcrumbs_count`, and a byte ring `s_breadcrumbs_buf` addressed by
`s_breadcrumbs_buf_read_index` / `s_breadcrumbs_buf_write_index`.  A slot
is embedded as the data its packed bytes encode (name, metadata pairs,
repeat count) plus its recorded `buf_size`; the byte ring is embedded as
the two cursors with the source's exact arithmetic.  The C counters are
`int`, so counts are `Int` here (one verified defect drives a count
negative). -/

structure Crumb where
  name : String
  meta : List (String × String)
  count : Nat
  bufSize : Nat
  deriving Repr, DecidableEq

/-- State a slot is given by the clearing in `breadcrumb_deque`
(forensics.cpp lines 175-181): null name, no metadata, zero counts. -/
def clearedCrumb : Crumb := ⟨"", [], 0, 0⟩

structure BCState where
  slots : List Crumb
  idxNext : Nat
  count : Int
  readIdx : Nat
  writeIdx : Nat
  deriving Repr, DecidableEq

/-- State after `forensics_init` (forensics.cpp lines 285-290).  The C
slot array is allocated uninitialized; slots are modelled zero-initialized,
and every theorem below reads only slots that were previously written or
explicitly cleared by `breadcrumb_deque`. -/
def bc_init (cfg : Config) : BCState :=
  ⟨List.replicate cfg.max_breadcrumb_count clearedCrumb, 0, 0, 0, 0⟩

/-- Ring-byte allocation, mirroring `breadcrumb_buf_alloc` (forensics.cpp
lines 141-162).  Returns the new write index on success (`none` is the C
`nullptr`); the returned pointer itself carries no extra information since
slot payloads are stored structurally. -/
def breadcrumb_buf_alloc (cfg : Config) (readIdx writeIdx size_bytes : Nat) :
    Option Nat :=
  if writeIdx < readIdx ∧ writeIdx + size_bytes > readIdx then none
  else if writeIdx + size_bytes > cfg.breadcrumb_buf_size_bytes then
    if size_bytes > readIdx then none else some size_bytes
  else some (writeIdx + size_bytes)

/-- Eviction of the oldest breadcrumb, mirroring `breadcrumb_deque`
(forensics.cpp lines 164-185): the first live index is
`(index_next + max - count) % max` (C `int` arithmetic; the numerator is
nonnegative whenever `count ≤ index_next + max`, which holds in every use
below, so C `%` agrees with `Int.emod`), the read cursor advances by the
slot's recorded byte size and resets to 0 on reaching the buffer end, the
slot is cleared, and the count is decremented — unconditionally. -/
def breadcrumb_deque (cfg : Config) (s : BCState) : BCState :=
  let firstIdx : Nat :=
    (((s.idxNext : Int) + (cfg.max_breadcrumb_count : Int) - s.count) %
      (cfg.max_breadcrumb_count : Int)).toNat
  let crumb := s.slots.getD firstIdx clearedCrumb
  let r := s.readIdx + crumb.bufSize
  let r' := if r ≥ cfg.breadcrumb_buf_size_bytes then 0 else r
  { s with
    slots := s.slots.set firstIdx clearedCrumb
    readIdx := r'
    count := s.count - 1 }

/-- Slot index holding the most recently recorded breadcrumb:
`(index_next + max - 1) % max` (forensics.cpp lines 377-378). -/
def bc_lastIdx (cfg : Config) (s : BCState) : Nat :=
  (s.idxNext + cfg.max_breadcrumb_count - 1) % cfg.max_breadcrumb_count

/-- Comparison against the most recent breadcrumb (forensics.cpp lines
380-392): the C code checks `meta_count` equality, then `strcmp` on the
name, then pairwise `strcmp` on the first `meta_count` keys and values;
on lists of pairs this is exactly equality of name and metadata list. -/
def breadcrumb_matches_last (cfg : Config) (s : BCState) (name : String)
    (meta : List (String × String)) : Bool :=
  let prev := s.slots.getD (bc_lastIdx cfg s) clearedCrumb
  prev.name = name ∧ prev.meta = meta

/-- Bytes required in the ring for one breadcrumb (forensics.cpp lines
402-411): two pointer arrays of `meta_count` entries each, the name, and
every key and value, all NUL-terminated. -/
def breadcrumb_required_size (name : String) (meta : List (String × String)) : Nat :=
  ptrSize * meta.length * 2 + strSize name +
    (meta.map (fun e => strSize e.1 + strSize e.2)).sum

/-- Commit of a freshly allocated breadcrumb (forensics.cpp lines 433-468):
the slot at `index_next` receives the payload with repeat count 1 and the
recorded byte size, the write cursor is advanced to the allocator's result,
`index_next` steps forward modulo the slot capacity and the live count is
incremented. -/
def breadcrumb_commit (cfg : Config) (s : BCState) (name : String)
    (meta : List (String × String)) (required newWrite : Nat) : BCState :=
  { s with
    slots := s.slots.set s.idxNext ⟨name, meta, 1, required⟩
    writeIdx := newWrite
    idxNext := (s.idxNext + 1) % cfg.max_breadcrumb_count
    count := s.count + 1 }

/-- Eviction loop of `forensics_add_breadcrumb` (forensics.cpp lines
426-430): `while (alloc == nullptr) { breadcrumb_deque(); alloc =
breadcrumb_buf_alloc(required_size); }`.  The C loop is unbounded; `fuel`
counts loop iterations and `none` means the bound was exhausted, so a
result of `none` for every fuel value witnesses divergence. -/
def breadcrumb_evict_loop (cfg : Config) (name : String)
    (meta : List (String × String)) (required : Nat) :
    Nat → BCState → Option BCState
  | 0, _ => none
  | fuel + 1, s =>
    let s' := breadcrumb_deque cfg s
    match breadcrumb_buf_alloc cfg s'.readIdx s'.writeIdx required with
    | some w => some (breadcrumb_commit cfg s' name meta required w)
    | none => breadcrumb_evict_loop cfg name meta required fuel s'

/-- Public `forensics_add_breadcrumb` (forensics.cpp lines 366-469),
without the lock acquisition (sequential embedding).  `none` only arises
from fuel exhaustion in the eviction loop. -/
def forensics_add_breadcrumb (cfg : Config) (fuel : Nat) (s : BCState)
    (name : String) (meta : List (String × String)) : Option BCState :=
  if cfg.max_breadcrumb_count = 0 then some s
  else if s.count > 0 ∧ breadcrumb_matches_last cfg s name meta then
    -- previous breadcrumb was identical; record the repetition and bail
    let li := bc_lastIdx cfg s
    let prev := s.slots.getD li clearedCrumb
    some { s with slots := s.slots.set li { prev with count := prev.count + 1 } }
  else
    let required := breadcrumb_required_size name meta
    -- remove a breadcrumb if there are too many
    let s := if s.count ≥ (cfg.max_breadcrumb_count : Int) then breadcrumb_deque cfg s else s
    match breadcrumb_buf_alloc cfg s.readIdx s.writeIdx required with
    | some w => some (breadcrumb_commit cfg s name meta required w)
    | none =>
      -- bail in the pathological case where it can't fit
      if required > cfg.breadcrumb_buf_size_bytes then some s
      else breadcrumb_evict_loop cfg name meta required fuel s

/-! ## Per-thread context stack

A `context_buffer_t` holds an `int` count, capacity and overflow counter
plus a fixed array `stack` of `capacity` label pointers.  The array is
embedded as a list of fixed length `capacity` (initial contents arbitrary,
modelled as `""`); `count` is `Int` as in C, and `overflow_count` is `Nat`
since the source only ever decrements it when it is positive. -/

structure CtxBuf where
  count : Int
  capacity : Nat
  overflowCount : Nat
  stack : List String
  deriving Repr, DecidableEq

/-- Fresh per-thread buffer as set up by `context_buffer_init`
(forensics.cpp lines 190-194). -/
def ctx_buf_init (cfg : Config) : CtxBuf :=
  ⟨0, cfg.max_context_depth, 0, List.replicate cfg.max_context_depth ""⟩

/-- Logical stack contents: the first `count` array slots. -/
def ctxContents (b : CtxBuf) : List String := b.stack.take b.count.toNat

/-- Push, mirroring `forensics_context_begin` (forensics.cpp lines
329-347) after the lazy init: at capacity the overflow counter is bumped
and nothing is stored, otherwise the label is written at index `count`
(strictly below `capacity`, hence in bounds) and the count grows. -/
def forensics_context_begin (name : String) (b : CtxBuf) : CtxBuf :=
  let newCount := b.count + 1
  if newCount > (b.capacity : Int) then
    { b with overflowCount := b.overflowCount + 1 }
  else
    { b with stack := b.stack.set b.count.toNat name, count := newCount }

/-- Pop, mirroring `forensics_context_end` (forensics.cpp lines 349-364).
The returned flag is true when the underflow `FORENSICS_ASSERTF` fires
(its condition `count > 0` is false); the count is decremented afterwards
regardless, exactly as in the source (the assertion reports and, when not
halting, execution continues). -/
def forensics_context_end (b : CtxBuf) : CtxBuf × Bool :=
  if b.overflowCount > 0 then
    ({ b with overflowCount := b.overflowCount - 1 }, false)
  else
    ({ b with count := b.count - 1 }, !(b.count > 0 : Bool))

inductive CtxOp where
  | begin (name : String)
  | done
  deriving Repr, DecidableEq

/-- Execution of a sequence of begin/end calls on one thread's buffer;
the flag accumulates whether any underflow assertion fired. -/
def ctx_exec (b : CtxBuf) : List CtxOp → CtxBuf × Bool
  | [] => (b, false)
  | CtxOp.begin n :: rest => ctx_exec (forensics_context_begin n b) rest
  | CtxOp.done :: rest =>
    ((ctx_exec (forensics_context_end b).1 rest).1,
      (forensics_context_end b).2 || (ctx_exec (forensics_context_end b).1 rest).2)

/-- Balanced begin/end sequences (Dyck words over context operations). -/
inductive Balanced : List CtxOp → Prop where
  | nil : Balanced []
  | wrap (n : String) {l : List CtxOp} : Balanced l →
      Balanced (CtxOp.begin n :: l ++ [CtxOp.done])
  | append {l₁ l₂ : List CtxOp} : Balanced l₁ → Balanced l₂ →
      Balanced (l₁ ++ l₂)

/-- States reachable by the source: the count stays within the array, and
the overflow counter is positive only with the array full (overflow is
only ever incremented at full count and decremented before any pop). -/
def CtxInv (b : CtxBuf) : Prop :=
  0 ≤ b.count ∧ b.count ≤ (b.capacity : Int) ∧
    (0 < b.overflowCount → b.count = (b.capacity : Int)) ∧
    b.stack.length = b.capacity

/-! ## Global context-stack registry

`context_buffer_init` / `context_buffer_destroy` maintain an intrusive
doubly-linked list of every thread's `context_buffer_t` rooted at
`s_context_buf_list`.  Buffers are identified by node ids; the heap of
nodes is an association list from id to the three link-relevant fields
(`prev`, `next`, `initialized`).  All pointer reads and writes of the
source are reproduced verbatim on these fields. -/

structure CtxNode where
  prev : Option Nat
  next : Option Nat
  initialized : Bool
  deriving Repr, DecidableEq

structure CtxReg where
  head : Option Nat
  nodes : List (Nat × CtxNode)
  deriving Repr, DecidableEq

def getNode (r : CtxReg) (id : Nat) : CtxNode :=
  ((r.nodes.find? (fun e => e.1 = id)).map (fun e => e.2)).getD ⟨none, none, false⟩

def setNode (r : CtxReg) (id : Nat) (n : CtxNode) : CtxReg :=
  { r with nodes := (id, n) :: r.nodes.filter (fun e => e.1 ≠ id) }

def ctx_reg_empty : CtxReg := ⟨none, []⟩

/-- Registration of a fresh buffer, mirroring `context_buffer_init`
(forensics.cpp lines 187-211).  The node's links are nulled, then: on an
empty list the node becomes the head; otherwise the node's `next` is set
to the old head, the head is moved to the node, and — exactly as written
in the source — the branch `if (ctx_buf->next != nullptr)` assigns
`ctx_buf->prev = ctx_buf`, i.e. the new head's `prev` points to the node
itself (and the old head's `prev` is left untouched). -/
def context_buffer_init (id : Nat) (r : CtxReg) : CtxReg :=
  let node : CtxNode := ⟨none, none, true⟩
  match r.head with
  | none => { setNode r id node with head := some id }
  | some h =>
    let node := { node with next := some h }
    let node := if node.next ≠ none then { node with prev := some id } else node
    { setNode r id node with head := some id }

/-- Teardown of one buffer, mirroring `context_buffer_destroy`
(forensics.cpp lines 213-240): a second destroy of the same node is a
no-op; a destroy of the head moves the head to `next` and nulls that
node's `prev`; otherwise the neighbours named by the node's own `prev` /
`next` fields are restitched (and nothing else). -/
def context_buffer_destroy (id : Nat) (r : CtxReg) : CtxReg :=
  let node := getNode r id
  if node.initialized then
    let r := setNode r id { node with initialized := false }
    if r.head = some id then
      let r := { r with head := node.next }
      match node.next with
      | some nx => setNode r nx { getNode r nx with prev := none }
      | none => r
    else
      let r := match node.next with
               | some nx => setNode r nx { getNode r nx with prev := node.prev }
               | none => r
      match node.prev with
      | some pv => setNode r pv { getNode r pv with next := node.next }
      | none => r
  else r

/-- Shutdown loop of `forensics_shutdown` (forensics.cpp lines 297-299):
`while (s_context_buf_list != nullptr) context_buffer_destroy(head);`.
`fuel` bounds the iterations; `some` is the loop exiting with an empty
list, and `none` for every fuel value witnesses divergence. -/
def forensics_shutdown_loop : Nat → CtxReg → Option CtxReg
  | 0, r => match r.head with
            | none => some r
            | some _ => none
  | fuel + 1, r =>
    match r.head with
    | none => some r
    | some h => forensics_shutdown_loop fuel (context_buffer_destroy h r)

/-! ## Report assembly and fingerprinting -/

/-- Index of the last occurrence of `c` in a character list, mirroring
`strrchr` (`none` is the C `nullptr`; `some i` is a pointer to offset
`i`). -/
def lastIdxOf (c : Char) : List Char → Option Nat
  | [] => none
  | x :: xs =>
    match lastIdxOf c xs with
    | some i => some (i + 1)
    | none => if x = c then some 0 else none

/-- Basename extraction of `forensics_report_assert_failure`
(forensics.cpp lines 583-592): `strrchr(file, '/')`, falling back to
`strrchr(file, '\\')` only when there is no forward slash at all, falling
back to the whole path; the pointer is advanced past the separator only
when it differs from the start of the string (`file_basename != file`,
i.e. the match offset is nonzero). -/
def report_file_basename (cs : List Char) : List Char :=
  match lastIdxOf '/' cs with
  | some i => if i = 0 then cs else cs.drop (i + 1)
  | none =>
    match lastIdxOf '\\' cs with
    | some i => if i = 0 then cs else cs.drop (i + 1)
    | none => cs

/-- Most specific context for the fingerprint (forensics.cpp line 582):
the label at index `count - 1` when the calling thread's stack is
non-empty, the `"<none>"` sentinel otherwise. -/
def report_context_label (b : CtxBuf) : String :=
  if b.count > 0 then b.stack.getD (b.count.toNat - 1) "" else "<none>"

/-- Truncating bounded print: `snprintf`/`vsnprintf` with buffer size `n`
keep at most `n - 1` characters of the full text (forensics.cpp lines
523 and 593).  The model covers `n > 0`; at `n = 0` the C functions write
nothing at all and the subsequent manual NUL store is itself out of
bounds (see `report_id_write_index`). -/
def snprintf_trunc (n : Nat) (s : String) : String := ⟨s.data.take (n - 1)⟩

/-- Fingerprint id (forensics.cpp line 593): `snprintf(id, max_id_size,
"%s-%s-%s-%s", context, file_basename, func, format)`. -/
def report_id (cfg : Config) (context : String) (file func format : String) : String :=
  snprintf_trunc cfg.max_id_size_bytes
    (context ++ "-" ++ (⟨report_file_basename file.data⟩ : String) ++ "-" ++
      func ++ "-" ++ format)

/-- Array index written by the manual NUL terminator stores
`s_report_id[s_config.max_id_size_bytes - 1] = 0` (forensics.cpp line
594) and `s_report_formatted_msg[s_config.max_formatted_message_size_bytes
- 1] = 0` (line 524): the subtraction happens on C `unsigned int`, so a
configured size of 0 wraps around to `2^32 - 1`. -/
def report_id_write_index (size_bytes : Nat) : Nat :=
  (size_bytes + 2 ^ 32 - 1) % 2 ^ 32

/-- Report value handed to the handler, mirroring `forensics_report_t`
plus the breadcrumb snapshot (the `TODO: breadcrumbs` fields assembled in
forensics.cpp lines 558-570). -/
structure Report where
  id : String
  file : String
  line : Int
  func : String
  expression : String
  format : String
  formatted : String
  fatal : Bool
  contextStack : List String
  contextCount : Int
  attributeKeys : List String
  attributeValues : List String
  breadcrumbs : List Crumb
  backtraceCount : Nat
  deriving Repr, DecidableEq

/-- Chronological breadcrumb snapshot (forensics.cpp lines 560-567):
entry `i` comes from slot `(index_next + max - count + i) % max`. -/
def bc_snapshot (cfg : Config) (s : BCState) : List Crumb :=
  (List.range s.count.toNat).map (fun i =>
    s.slots.getD
      ((((s.idxNext : Int) + (cfg.max_breadcrumb_count : Int) - s.count + (i : Int)) %
        (cfg.max_breadcrumb_count : Int)).toNat) clearedCrumb)

/-- Report construction of `forensics_report_assert_failure`
(forensics.cpp lines 514-595), with the lock, the variadic formatting and
the backtrace capture at their interface boundary: `formattedFull` is the
untruncated `vsnprintf` rendering of `format` with the call's arguments,
and `backtraceCount` is what the capture collaborator returned.  Assumes a
positive formatted-message and id size (see `report_id_write_index` for
the degenerate 0 case). -/
def forensics_report_assert_failure (cfg : Config) (attrs : AttrState)
    (bc : BCState) (ctx : CtxBuf) (file : String) (line : Int) (func : String)
    (fatal : Bool) (expression : String) (format : String)
    (formattedFull : String) (backtraceCount : Nat) : Report :=
  { id := report_id cfg (report_context_label ctx) file func format
    file := file
    line := line
    func := func
    expression := expression
    format := format
    formatted := snprintf_trunc cfg.max_formatted_message_size_bytes formattedFull
    fatal := fatal
    contextStack := ctxContents ctx
    contextCount := ctx.count
    attributeKeys := attrs.entries.map (fun e => e.1)
    attributeValues := attrs.entries.map (fun e => e.2)
    breadcrumbs := bc_snapshot cfg bc
    backtraceCount := backtraceCount }

/-! ## Specification-side basename (for claim C9)

The claim under examination reads the basename as "the substring following
the last path separator in the string, where both forward slash and
backslash count"; the source instead prefers the last forward slash and
consults backslashes only when no forward slash occurs at all.  The
amended description is stated here as an independent definition (via
reverse/takeWhile rather than index search) and proved equal to the code's
`report_file_basename`. -/

/-- Substring strictly after the last occurrence of `c` (the whole string
when `c` does not occur). -/
def afterLast (c : Char) (cs : List Char) : List Char :=
  (cs.reverse.takeWhile (fun x => x ≠ c)).reverse

/-- Amended basename: the suffix after the last forward slash when the
path contains one, otherwise after the last backslash, otherwise the whole
path — except that when that separator is the path's first character the
component is the whole path, separator included. -/
def basename_amended (cs : List Char) : List Char :=
  if '/' ∈ cs then
    if (afterLast '/' cs).length + 1 = cs.length then cs else afterLast '/' cs
  else if '\\' ∈ cs then
    if (afterLast '\\' cs).length + 1 = cs.length then cs else afterLast '\\' cs
  else cs

/-! ## Lemmas about `lastIdxOf` and `afterLast` -/

theorem lastIdxOf_eq_none_iff (c : Char) (cs : List Char) :
    lastIdxOf c cs = none ↔ c ∉ cs := by
  induction cs with
  | nil => simp [lastIdxOf]
  | cons x xs ih =>
    simp only [lastIdxOf, List.mem_cons]
    cases h : lastIdxOf c xs with
    | some i =>
      have hc : c ∈ xs := by
        by_contra hc
        rw [← ih] at hc
        rw [h] at hc
        exact Option.noConfusion hc
      simp [hc]
    | none =>
      have hc : c ∉ xs := ih.mp h
      by_cases hx : x = c
      · simp [hx]
      · have hcx : ¬ c = x := fun h' => hx h'.symm
        simp [hx, hc, hcx]

theorem mem_of_lastIdxOf_some {c : Char} {cs : List Char} {i : Nat}
    (h : lastIdxOf c cs = some i) : c ∈ cs := by
  by_contra hc
  rw [← lastIdxOf_eq_none_iff] at hc
  rw [hc] at h
  exact Option.noConfusion h

theorem takeWhile_append_left {α : Type} (p : α → Bool) (l r : List α)
    (h : ∃ a ∈ l, ¬ p a) : (l ++ r).takeWhile p = l.takeWhile p := by
  induction l with
  | nil => simp at h
  | cons x xs ih =>
    by_cases hx : p x
    · simp only [List.cons_append, List.takeWhile_cons, hx, if_true]
      congr 1
      apply ih
      rcases h with ⟨a, ha, hpa⟩
      rcases List.mem_cons.mp ha with rfl | ha'
      · exact absurd hx hpa
      · exact ⟨a, ha', hpa⟩
    · simp [List.takeWhile_cons, hx]

theorem takeWhile_append_all {α : Type} (p : α → Bool) (l r : List α)
    (h : ∀ a ∈ l, p a) : (l ++ r).takeWhile p = l ++ r.takeWhile p := by
  induction l with
  | nil => simp
  | cons x xs ih =>
    have hx : p x = true := h x (List.mem_cons_self x xs)
    simp only [List.cons_append, List.takeWhile_cons, hx, if_true]
    rw [ih (fun a ha => h a (List.mem_cons_of_mem x ha))]

theorem lastIdxOf_drop (c : Char) (cs : List Char) (i : Nat)
    (h : lastIdxOf c cs = some i) :
    cs.drop (i + 1) = afterLast c cs ∧
      i + 1 + (afterLast c cs).length = cs.length := by
  induction cs generalizing i with
  | nil => simp [lastIdxOf] at h
  | cons x xs ih =>
    simp only [lastIdxOf] at h
    cases h' : lastIdxOf c xs with
    | some j =>
      rw [h'] at h
      injection h with h
      subst h
      obtain ⟨hd, hl⟩ := ih j h'
      have hmem : c ∈ xs := mem_of_lastIdxOf_some h'
      have hafter : afterLast c (x :: xs) = afterLast c xs := by
        unfold afterLast
        rw [List.reverse_cons,
          takeWhile_append_left _ _ _ ⟨c, by simpa using hmem, by simp⟩]
      refine ⟨?_, ?_⟩
      · rw [hafter]
        simpa using hd
      · rw [hafter]
        simp only [List.length_cons]
        omega
    | none =>
      rw [h'] at h
      have hc : c ∉ xs := (lastIdxOf_eq_none_iff c xs).mp h'
      by_cases hx : x = c
      · rw [if_pos hx] at h
        injection h with h
        subst h
        have hafter : afterLast c (x :: xs) = xs := by
          unfold afterLast
          rw [List.reverse_cons,
            takeWhile_append_all _ _ _ (by
              intro a ha
              simp only [decide_eq_true_eq, ne_eq]
              intro hac
              exact hc (hac ▸ List.mem_reverse.mp ha))]
          simp [hx]
        rw [hafter]
        constructor
        · simp
        · simp
          omega
      · rw [if_neg hx] at h
        exact Option.noConfusion h

/-! ## Claim C9 -/

/-- C9 counterexample: in the path `"dir/sub\x.c"` the separator occurring
last in the string is the backslash at offset 7 (no separator of either
kind occurs later), so the claim demands the file component `"x.c"`; the
code's basename extraction instead prefers the last forward slash and
yields `"sub\x.c"`. -/
theorem c9_basename_counterexample :
    (("dir/sub\\x.c".data.getD 7 ' ') = '\\' ∧
      "dir/sub\\x.c".data.drop (7 + 1) = "x.c".data ∧
      (List.range "dir/sub\\x.c".data.length).all
        (fun j => decide (j ≤ 7) ||
          (!decide ("dir/sub\\x.c".data.getD j ' ' = '/') &&
           !decide ("dir/sub\\x.c".data.getD j ' ' = '\\'))) = true) ∧
    report_file_basename "dir/sub\\x.c".data ≠ "x.c".data ∧
    report_file_basename "dir/sub\\x.c".data = "sub\\x.c".data := by
  decide

/-- C9 (amended): the fingerprint's file component is the substring
following the last forward slash when the path contains one, otherwise the
substring following the last backslash, otherwise the whole path; when
that separator is the path's first character the component is the whole
path, separator included.  Stated as equality of the code's extraction
with an independent rendering of the amended description. -/
theorem c9_basename_amended (cs : List Char) :
    report_file_basename cs = basename_amended cs := by
  unfold report_file_basename basename_amended
  cases h : lastIdxOf '/' cs with
  | some i =>
    have hmem : '/' ∈ cs := mem_of_lastIdxOf_some h
    obtain ⟨hd, hl⟩ := lastIdxOf_drop '/' cs i h
    dsimp only
    rw [if_pos hmem]
    by_cases hi : i = 0
    · subst hi
      rw [if_pos rfl, if_pos (by omega)]
    · rw [if_neg hi, if_neg (by omega)]
      exact hd
  | none =>
    have hns : '/' ∉ cs := (lastIdxOf_eq_none_iff _ _).mp h
    dsimp only
    rw [if_neg hns]
    cases h2 : lastIdxOf '\\' cs with
    | some i =>
      have hmem : '\\' ∈ cs := mem_of_lastIdxOf_some h2
      obtain ⟨hd, hl⟩ := lastIdxOf_drop '\\' cs i h2
      dsimp only
      rw [if_pos hmem]
      by_cases hi : i = 0
      · subst hi
        rw [if_pos rfl, if_pos (by omega)]
      · rw [if_neg hi, if_neg (by omega)]
        exact hd
    | none =>
      dsimp only
      rw [if_neg ((lastIdxOf_eq_none_iff _ _).mp h2)]

/-! ## Claim C4 -/

/-- Configuration with an 8-byte attribute region, under which one
`("k","v")` entry occupies exactly half the region. -/
def c4_cfg : Config := { forensics_config_init with attribute_buf_size_bytes := 8 }

/-- C4: refuted on the code.  `attribute_clear` shifts the bytes and
rebases the pointers but never subtracts the removed entry's packed size
from `s_attribute_buf_used`, so the used-byte accounting does not
decrease: after setting the same key `"k"` to the same value `"v"`
(packed size 4) twice, the store holds one live entry of 4 packed bytes
while `bufUsed` is 8, and the third identical set trips the
"attribute buffer is full" capacity assertion even though only 4 of the 8
configured bytes are live. -/
theorem c4_attribute_clear_leaks_bytes :
    forensics_set_attribute c4_cfg "k" (some "v") attr_init =
      some ⟨[("k", "v")], 4⟩ ∧
    forensics_set_attribute c4_cfg "k" (some "v") ⟨[("k", "v")], 4⟩ =
      some ⟨[("k", "v")], 8⟩ ∧
    (([(("k" : String), ("v" : String))].map attrEntrySize).sum = 4 ∧ (4 : Nat) ≠ 8) ∧
    forensics_set_attribute c4_cfg "k" (some "v") ⟨[("k", "v")], 8⟩ = none := by
  decide

/-! ## Claim C3 -/

/-- Configuration with every capacity option set to 0. -/
def cfg_zero : Config :=
  { fatal_should_halt := true
    max_id_size_bytes := 0
    max_context_depth := 0
    max_formatted_message_size_bytes := 0
    max_attribute_count := 0
    attribute_buf_size_bytes := 0
    max_backtrace_count := 0
    max_breadcrumb_count := 0
    breadcrumb_buf_size_bytes := 0 }

/-- C3: refuted on the code.  The attribute, breadcrumb and context paths
are indeed safe no-ops under zero capacity (first three conjuncts), but
failure reporting is not: the manual NUL terminator store
`s_report_id[s_config.max_id_size_bytes - 1] = 0` computes its index in C
`unsigned int` arithmetic, so with `max_id_size_bytes = 0` it writes to
index `2^32 - 1` of a 0-byte buffer — an out-of-bounds write, not a safe
no-op (and likewise for `max_formatted_message_size_bytes = 0` at line
524). -/
theorem c3_zero_capacity_not_safe :
    (∀ (s : AttrState) (k : String) (v : Option String),
      forensics_set_attribute cfg_zero k v s = some s) ∧
    (∀ (fuel : Nat) (s : BCState) (n : String) (m : List (String × String)),
      forensics_add_breadcrumb cfg_zero fuel s n m = some s) ∧
    (∀ (c ov : Nat) (st : List String) (n : String),
      forensics_context_begin n ⟨(c : Int), 0, ov, st⟩ =
        ⟨(c : Int), 0, ov + 1, st⟩) ∧
    (report_id_write_index cfg_zero.max_id_size_bytes = 4294967295 ∧
      ¬ report_id_write_index cfg_zero.max_id_size_bytes <
          cfg_zero.max_id_size_bytes ∧
      report_id_write_index 512 = 511) := by
  refine ⟨?_, ?_, ?_, by decide⟩
  · intro s k v
    simp [forensics_set_attribute, cfg_zero]
  · intro fuel s n m
    simp [forensics_add_breadcrumb, cfg_zero]
  · intro c ov st n
    unfold forensics_context_begin
    rw [if_pos (by omega : ((c : Int) + 1 > ((0 : Nat) : Int)))]

/-! ## Claim C5 -/

/-- Registry after two per-thread stacks were created: thread 0's buffer
first, then thread 1's. -/
def c5_reg2 : CtxReg := context_buffer_init 1 (context_buffer_init 0 ctx_reg_empty)

/-- Registry after thread 0's buffer (the older, non-head node) was
destroyed first. -/
def c5_reg3 : CtxReg := context_buffer_destroy 0 c5_reg2

/-- Registry in which `forensics_shutdown` is stuck: the head names a
node whose `initialized` flag is already false, so destroying it changes
nothing. -/
def c5_stuck : CtxReg :=
  ⟨some 0, [(0, ⟨none, none, false⟩), (1, ⟨some 1, some 0, false⟩)]⟩

theorem c5_stuck_loop (n : Nat) : forensics_shutdown_loop n c5_stuck = none := by
  induction n with
  | zero => decide
  | succ n ih =>
    have hfix : context_buffer_destroy 0 c5_stuck = c5_stuck := by decide
    show forensics_shutdown_loop n (context_buffer_destroy 0 c5_stuck) = none
    rw [hfix]
    exact ih

/-- C5: refuted on the code.  Inserting a second stack at the head of the
registry executes `ctx_buf->prev = ctx_buf` (forensics.cpp line 208), so
the head's `prev` points to the head itself — not null — and the old
head's `prev` is never set; consequently destroying the older, non-head
buffer first unlinks nothing (its own `prev`/`next` are null), the
destroyed node stays reachable as the head's `next`, and the
`forensics_shutdown` loop re-destroys that already-uninitialized node
forever: it terminates for no fuel bound. -/
theorem c5_registry_not_well_formed :
    (c5_reg2.head = some 1 ∧ (getNode c5_reg2 1).prev = some 1) ∧
    ((getNode c5_reg2 1).next = some 0 ∧ (getNode c5_reg2 0).prev ≠ some 1) ∧
    ((getNode c5_reg3 0).initialized = false ∧ c5_reg3.head = some 1 ∧
      (getNode c5_reg3 1).next = some 0) ∧
    (∀ fuel : Nat, forensics_shutdown_loop fuel c5_reg3 = none) := by
  refine ⟨by decide, by decide, by decide, ?_⟩
  intro fuel
  cases fuel with
  | zero => decide
  | succ n =>
    have hstep : context_buffer_destroy 1 c5_reg3 = c5_stuck := by decide
    show forensics_shutdown_loop n (context_buffer_destroy 1 c5_reg3) = none
    rw [hstep]
    exact c5_stuck_loop n

/-! ## Claim C1 -/

/-- C1: the fingerprint id is a pure function of the most specific
context label (or the `"<none>"` sentinel for an empty stack), the source
file, the function name and the raw format string.  First conjunct:
reports built from arbitrary attribute stores, breadcrumb rings, context
buffers with the same most-specific label, lines, fatal flags, expression
texts, message arguments and backtraces have identical ids.  Second
conjunct: whenever the four components fit the configured id capacity,
the id is exactly the '-'-separated concatenation
`context-basename-function-format`; with an empty format string the
trailing separator is therefore present. -/
theorem c1_fingerprint_pure_concat :
    (∀ (cfg : Config) (attrs₁ attrs₂ : AttrState) (bc₁ bc₂ : BCState)
        (ctx₁ ctx₂ : CtxBuf) (file func format : String)
        (line₁ line₂ : Int) (fatal₁ fatal₂ : Bool)
        (e₁ e₂ msg₁ msg₂ : String) (bt₁ bt₂ : Nat),
      report_context_label ctx₁ = report_context_label ctx₂ →
      (forensics_report_assert_failure cfg attrs₁ bc₁ ctx₁ file line₁ func
        fatal₁ e₁ format msg₁ bt₁).id =
      (forensics_report_assert_failure cfg attrs₂ bc₂ ctx₂ file line₂ func
        fatal₂ e₂ format msg₂ bt₂).id) ∧
    (∀ (cfg : Config) (attrs : AttrState) (bc : BCState) (ctx : CtxBuf)
        (file func format : String) (line : Int) (fatal : Bool)
        (e msg : String) (bt : Nat),
      (report_context_label ctx ++ "-" ++
        (⟨report_file_basename file.data⟩ : String) ++ "-" ++ func ++ "-" ++
        format).data.length ≤ cfg.max_id_size_bytes - 1 →
      (forensics_report_assert_failure cfg attrs bc ctx file line func fatal
        e format msg bt).id =
        report_context_label ctx ++ "-" ++
          (⟨report_file_basename file.data⟩ : String) ++ "-" ++ func ++ "-" ++
          format) := by
  constructor
  · intro cfg attrs₁ attrs₂ bc₁ bc₂ ctx₁ ctx₂ file func format line₁ line₂
      fatal₁ fatal₂ e₁ e₂ msg₁ msg₂ bt₁ bt₂ h
    show report_id cfg (report_context_label ctx₁) file func format =
      report_id cfg (report_context_label ctx₂) file func format
    rw [h]
  · intro cfg attrs bc ctx file func format line fatal e msg bt hfit
    show report_id cfg (report_context_label ctx) file func format = _
    unfold report_id snprintf_trunc
    rw [List.take_of_length_le hfit]

/-- Witness for C1: two reports under the default configuration with
different attributes, breadcrumbs, lines, fatal flags, expression texts,
message arguments and backtrace counts, but the same (empty) context,
file, function and (empty) format, share one id, and that id is exactly
`"<none>-forensics_spec.cpp-operator()-"` — the string the repository's
own test asserts. -/
theorem c1_fingerprint_pure_concat_witness :
    (forensics_report_assert_failure forensics_config_init ⟨[("user", "x")], 7⟩
        (bc_init forensics_config_init) (ctx_buf_init forensics_config_init)
        "/abs/forensics_spec.cpp" 91 "operator()" true "false" "" "" 5).id =
      (forensics_report_assert_failure forensics_config_init attr_init
        (bc_init forensics_config_init) ⟨0, 0, 7, []⟩
        "/abs/forensics_spec.cpp" 106 "operator()" false "x" "" "failed num=2" 0).id ∧
    (forensics_report_assert_failure forensics_config_init ⟨[("user", "x")], 7⟩
        (bc_init forensics_config_init) (ctx_buf_init forensics_config_init)
        "/abs/forensics_spec.cpp" 91 "operator()" true "false" "" "" 5).id =
      "<none>-forensics_spec.cpp-operator()-" := by
  constructor
  · exact c1_fingerprint_pure_concat.1 forensics_config_init
      ⟨[("user", "x")], 7⟩ attr_init
      (bc_init forensics_config_init) (bc_init forensics_config_init)
      (ctx_buf_init forensics_config_init) ⟨0, 0, 7, []⟩
      "/abs/forensics_spec.cpp" "operator()" "" 91 106 true false
      "false" "x" "" "failed num=2" 5 0 (by decide)
  · have h := c1_fingerprint_pure_concat.2 forensics_config_init
      ⟨[("user", "x")], 7⟩ (bc_init forensics_config_init)
      (ctx_buf_init forensics_config_init)
      "/abs/forensics_spec.cpp" "operator()" "" 91 true "false" "" 5
      (by decide)
    rw [h]
    decide

/-! ## Claim C2 -/

/-- Configuration whose breadcrumb byte budget (4) exactly equals the
packed size of one no-metadata breadcrumb with a 3-character name. -/
def bc_cfg_exact : Config :=
  { forensics_config_init with max_breadcrumb_count := 1, breadcrumb_buf_size_bytes := 4 }

/-- Ring state after adding `"one"` under `bc_cfg_exact`: the single slot
holds the crumb and the write cursor sits at the buffer end. -/
def bc_s1 : BCState := ⟨[⟨"one", [], 1, 4⟩], 0, 1, 0, 4⟩

/-- Ring state the eviction enters: the only crumb was dequeued, so the
read cursor wrapped to 0, yet the write cursor is still at the buffer
end — a state from which `breadcrumb_buf_alloc` can never succeed for a
4-byte request. -/
def bc_sD : BCState := ⟨[clearedCrumb], 0, 0, 0, 4⟩

theorem c2_deque_step (k : Int) :
    breadcrumb_deque bc_cfg_exact ⟨[clearedCrumb], 0, k, 0, 4⟩ =
      ⟨[clearedCrumb], 0, k - 1, 0, 4⟩ := by
  simp [breadcrumb_deque, bc_cfg_exact, clearedCrumb, Int.emod_one, forensics_config_init]

theorem c2_loop_div (fuel : Nat) : ∀ k : Int,
    breadcrumb_evict_loop bc_cfg_exact "two" [] 4 fuel ⟨[clearedCrumb], 0, k, 0, 4⟩ = none := by
  induction fuel with
  | zero => intro k; rfl
  | succ n ih =>
    intro k
    simp only [breadcrumb_evict_loop, c2_deque_step k]
    have halloc : breadcrumb_buf_alloc bc_cfg_exact 0 4 4 = none := by decide
    simp only [halloc]
    exact ih (k - 1)

/-- C2: refuted on the code.  With the byte budget exactly equal to one
no-metadata entry's packed size, adding a second distinct breadcrumb
diverges: the incoming 4 bytes do fit the total capacity (second
conjunct), so per the claim eviction must free space and the add must
land — but after `breadcrumb_deque` frees the only crumb the read cursor
wraps to 0 while the write cursor stays at the buffer end, so
`breadcrumb_buf_alloc` fails for every remaining iteration and the
`while (alloc == nullptr)` loop never exits (third conjunct, for every
fuel bound), dequeuing from an empty ring and driving the live count
negative (fourth conjunct). -/
theorem c2_exact_fit_eviction_diverges :
    forensics_add_breadcrumb bc_cfg_exact 0 (bc_init bc_cfg_exact) "one" [] = some bc_s1 ∧
    breadcrumb_required_size "two" [] ≤ bc_cfg_exact.breadcrumb_buf_size_bytes ∧
    (∀ fuel : Nat, forensics_add_breadcrumb bc_cfg_exact fuel bc_s1 "two" [] = none) ∧
    ((breadcrumb_deque bc_cfg_exact bc_sD).count = -1 ∧ bc_sD.count = 0) := by
  refine ⟨by decide, by decide, ?_, by decide⟩
  intro fuel
  have hred : forensics_add_breadcrumb bc_cfg_exact fuel bc_s1 "two" [] =
      breadcrumb_evict_loop bc_cfg_exact "two" [] 4 fuel bc_sD := rfl
  rw [hred]
  exact c2_loop_div fuel 0

/-! ## Claim C8 -/

theorem filter_ne_key_eq_self (k : String) (l : List (String × String))
    (h : k ∉ l.map Prod.fst) : l.filter (fun e => e.1 ≠ k) = l := by
  apply List.filter_eq_self.mpr
  intro a ha
  simp only [ne_eq, decide_not, Bool.not_eq_true', decide_eq_false_iff_not]
  intro hak
  exact h (hak ▸ List.mem_map_of_mem Prod.fst ha)

theorem attr_remove_eq_filter (k : String) (l : List (String × String))
    (h : (l.map Prod.fst).Nodup) :
    (match l.findIdx? (fun e => e.1 = k) with
     | some i => l.eraseIdx i
     | none => l) = l.filter (fun e => e.1 ≠ k) := by
  induction l with
  | nil => rfl
  | cons x xs ih =>
    rw [List.map_cons, List.nodup_cons] at h
    rw [List.findIdx?_cons]
    by_cases hx : x.1 = k
    · rw [if_pos (by simpa using hx)]
      have hnk : k ∉ xs.map Prod.fst := hx ▸ h.1
      rw [List.filter_cons_of_neg (by simpa using hx)]
      show xs = xs.filter (fun e => e.1 ≠ k)
      exact (filter_ne_key_eq_self k xs hnk).symm
    · rw [if_neg (by simpa using hx), List.findIdx?_succ,
        List.filter_cons_of_pos (by simpa using hx)]
      have ih' := ih h.2
      cases h' : xs.findIdx? (fun e => e.1 = k) with
      | some j =>
        rw [h'] at ih'
        dsimp only at ih'
        simp only [h', Option.map_some']
        show x :: xs.eraseIdx j = x :: xs.filter (fun e => e.1 ≠ k)
        rw [ih']
      | none =>
        rw [h'] at ih'
        dsimp only at ih'
        simp only [h', Option.map_none']
        show x :: xs = x :: xs.filter (fun e => e.1 ≠ k)
        rw [← ih']

/-- Removal step shared by both branches of `forensics_set_attribute`:
under unique keys it is exactly a filter on the entry list. -/
theorem set_attr_remove_eq_filter (k : String) (s : AttrState)
    (h : (s.entries.map Prod.fst).Nodup) :
    (match attribute_find k s with
     | some index => attribute_clear index s
     | none => s) =
      { s with entries := s.entries.filter (fun e => e.1 ≠ k) } := by
  have h0 := attr_remove_eq_filter k s.entries h
  unfold attribute_find attribute_clear
  cases h' : s.entries.findIdx? (fun e => e.1 = k) with
  | some i =>
    rw [h'] at h0
    dsimp only at h0
    simp only [h']
    show { s with entries := s.entries.eraseIdx i } = _
    rw [h0]
  | none =>
    rw [h'] at h0
    dsimp only at h0
    simp only [h']
    show s = _
    rw [← h0]

theorem find?_filter_of_imp {α : Type} (p q : α → Bool) (l : List α)
    (h : ∀ a, p a = true → q a = true) : (l.filter q).find? p = l.find? p := by
  induction l with
  | nil => rfl
  | cons x xs ih =>
    by_cases hq : q x
    · rw [List.filter_cons_of_pos hq, List.find?_cons, List.find?_cons]
      cases p x <;> simp [ih]
    · rw [List.filter_cons_of_neg (by simpa using hq), List.find?_cons]
      have hp : p x = false := by
        cases hpx : p x
        · rfl
        · exact absurd (h x hpx) (by simpa using hq)
      simp [hp, ih]

/-- C8: the clear-or-replace semantics of `forensics_set_attribute`.
With a present value any existing entry for the key is removed and
`(key, value)` appended, so keys stay unique, the key now looks up to the
new value and every other key's lookup is untouched; with an absent value
the entry is removed and nothing is stored.  The last conjunct is the
spec's concrete scenario: setting `user="x"`, `version="1.0"`, then `user`
to absent leaves exactly `version="1.0"` and `user` is not found. -/
theorem c8_set_attribute_semantics :
    (∀ (cfg : Config) (s : AttrState) (k : String),
      cfg.max_attribute_count ≠ 0 → (s.entries.map Prod.fst).Nodup →
      forensics_set_attribute cfg k none s =
        some { s with entries := s.entries.filter (fun e => e.1 ≠ k) }) ∧
    (∀ (cfg : Config) (s : AttrState) (k v : String) (s' : AttrState),
      cfg.max_attribute_count ≠ 0 → (s.entries.map Prod.fst).Nodup →
      forensics_set_attribute cfg k (some v) s = some s' →
      s'.entries = s.entries.filter (fun e => e.1 ≠ k) ++ [(k, v)] ∧
      (s'.entries.map Prod.fst).Nodup ∧
      attr_lookup k s' = some v ∧
      (∀ k' : String, k' ≠ k → attr_lookup k' s' = attr_lookup k' s)) ∧
    (((forensics_set_attribute forensics_config_init "user" (some "x") attr_init).bind
        (forensics_set_attribute forensics_config_init "version" (some "1.0"))).bind
        (forensics_set_attribute forensics_config_init "user" none) =
      some ⟨[("version", "1.0")], 19⟩ ∧
     attr_lookup "user" ⟨[("version", "1.0")], 19⟩ = none ∧
     attr_lookup "version" ⟨[("version", "1.0")], 19⟩ = some "1.0") := by
  refine ⟨?_, ?_, by decide⟩
  · intro cfg s k hmax hnd
    have h0 := set_attr_remove_eq_filter k s hnd
    unfold forensics_set_attribute
    rw [if_neg hmax]
    dsimp only
    cases h' : attribute_find k s with
    | some i =>
      rw [h'] at h0
      dsimp only at h0
      simp only [h']
      show some (attribute_clear i s) = _
      rw [h0]
    | none =>
      rw [h'] at h0
      dsimp only at h0
      simp only [h']
      show some s = _
      rw [← h0]
  · intro cfg s k v s' hmax hnd hset
    have hform : forensics_set_attribute cfg k (some v) s =
        attribute_append cfg k v { s with entries := s.entries.filter (fun e => e.1 ≠ k) } := by
      unfold forensics_set_attribute
      rw [if_neg hmax]
      dsimp only
      rw [set_attr_remove_eq_filter k s hnd]
    rw [hform] at hset
    unfold attribute_append at hset
    split at hset
    · dsimp only at hset
      split at hset
      · injection hset with hset
        subst hset
        refine ⟨rfl, ?_, ?_, ?_⟩
        · show ((s.entries.filter (fun e => e.1 ≠ k) ++ [(k, v)]).map Prod.fst).Nodup
          rw [List.map_append]
          apply List.Nodup.append
          · exact hnd.sublist ((List.filter_sublist _).map Prod.fst)
          · simp
          · intro a ha hb
            simp only [List.map_cons, List.map_nil, List.mem_singleton] at hb
            subst hb
            obtain ⟨e, he, hfe⟩ := List.mem_map.mp ha
            have := List.of_mem_filter he
            simp only [ne_eq, decide_not, Bool.not_eq_true', decide_eq_false_iff_not] at this
            exact this hfe
        · show attr_lookup k ⟨s.entries.filter (fun e => e.1 ≠ k) ++ [(k, v)], _⟩ = some v
          unfold attr_lookup
          rw [List.find?_append]
          have h1 : (s.entries.filter (fun e => e.1 ≠ k)).find?
              (fun e => e.1 = k) = none := by
            rw [List.find?_eq_none]
            intro e he
            have := List.of_mem_filter he
            simpa using this
          rw [h1]
          simp
        · intro k' hk'
          show attr_lookup k' ⟨s.entries.filter (fun e => e.1 ≠ k) ++ [(k, v)], _⟩ =
            attr_lookup k' s
          unfold attr_lookup
          rw [List.find?_append]
          have h2 : ([(k, v)].find? (fun e => e.1 = k')) = none := by
            have hkk : ¬ k = k' := fun h => hk' h.symm
            simp [hkk]
          rw [h2, Option.or_none]
          rw [find?_filter_of_imp _ _ _ (by
            intro a ha
            simp only [decide_eq_true_eq] at ha
            simp only [ne_eq, decide_not, Bool.not_eq_true', decide_eq_false_iff_not]
            rw [ha]
            exact hk')]
      · exact Option.noConfusion hset
    · exact Option.noConfusion hset

/-- Witness for C8: clearing `user` from a one-entry store removes the
entry and keeps the byte accounting field. -/
theorem c8_set_attribute_semantics_witness :
    forensics_set_attribute forensics_config_init "user" none ⟨[("user", "x")], 7⟩ =
      some ⟨[], 7⟩ := by
  have h := c8_set_attribute_semantics.1 forensics_config_init
    ⟨[("user", "x")], 7⟩ "user" (by decide) (by decide)
  simpa using h

/-! ## Claim C6 -/

/-- Ring state under the default configuration after one
`add_breadcrumb("boot", {env: production})`. -/
def c6_s1 : BCState :=
  ⟨(List.replicate 128 clearedCrumb).set 0 ⟨"boot", [("env", "production")], 1, 36⟩,
    1, 1, 0, 36⟩

/-- C6: the coalescing rule of `forensics_add_breadcrumb`.  First
conjunct: when the ring is non-empty and the incoming name and metadata
exactly match the most recent breadcrumb, the only change is that entry's
repeat count (no slot, cursor or byte movement).  Second conjunct: when
there is no match and the allocation succeeds directly, a fresh breadcrumb
is committed; third conjunct: a committed breadcrumb always carries repeat
count 1.  Fourth conjunct: the spec's two concrete scenarios — the same
`("boot", {env: production})` twice coalesces into one entry with repeat
count 2 and no extra ring bytes, while a second add differing only in the
metadata value stores two entries with repeat count 1 each. -/
theorem c6_breadcrumb_coalescing :
    (∀ (cfg : Config) (fuel : Nat) (s : BCState) (name : String)
        (meta : List (String × String)),
      cfg.max_breadcrumb_count ≠ 0 → s.count > 0 →
      breadcrumb_matches_last cfg s name meta = true →
      forensics_add_breadcrumb cfg fuel s name meta =
        some { s with slots := (s.slots.set (bc_lastIdx cfg s)
          ⟨(s.slots.getD (bc_lastIdx cfg s) clearedCrumb).name,
            (s.slots.getD (bc_lastIdx cfg s) clearedCrumb).meta,
            (s.slots.getD (bc_lastIdx cfg s) clearedCrumb).count + 1,
            (s.slots.getD (bc_lastIdx cfg s) clearedCrumb).bufSize⟩) }) ∧
    (∀ (cfg : Config) (fuel : Nat) (s : BCState) (name : String)
        (meta : List (String × String)) (w : Nat),
      cfg.max_breadcrumb_count ≠ 0 →
      ¬ (s.count > 0 ∧ breadcrumb_matches_last cfg s name meta = true) →
      s.count < (cfg.max_breadcrumb_count : Int) →
      breadcrumb_buf_alloc cfg s.readIdx s.writeIdx
        (breadcrumb_required_size name meta) = some w →
      forensics_add_breadcrumb cfg fuel s name meta =
        some (breadcrumb_commit cfg s name meta
          (breadcrumb_required_size name meta) w)) ∧
    (∀ (cfg : Config) (s : BCState) (name : String)
        (meta : List (String × String)) (required w : Nat),
      s.idxNext < s.slots.length →
      (breadcrumb_commit cfg s name meta required w).slots.getD s.idxNext
          clearedCrumb = ⟨name, meta, 1, required⟩) ∧
    (((forensics_add_breadcrumb forensics_config_init 0
          (bc_init forensics_config_init) "boot" [("env", "production")]).bind
        (fun s1 => forensics_add_breadcrumb forensics_config_init 0 s1
          "boot" [("env", "production")])).map
        (fun s2 => (s2.slots.getD 0 clearedCrumb, s2.count, s2.writeIdx)) =
      some (⟨"boot", [("env", "production")], 2, 36⟩, 1, 36) ∧
     ((forensics_add_breadcrumb forensics_config_init 0
          (bc_init forensics_config_init) "boot" [("env", "production")]).bind
        (fun s1 => forensics_add_breadcrumb forensics_config_init 0 s1
          "boot" [("env", "dev")])).map
        (fun s2 => (s2.slots.getD 0 clearedCrumb, s2.slots.getD 1 clearedCrumb,
          s2.count)) =
      some (⟨"boot", [("env", "production")], 1, 36⟩,
        ⟨"boot", [("env", "dev")], 1, 29⟩, 2)) := by
  refine ⟨?_, ?_, ?_, by decide, by decide⟩
  · intro cfg fuel s name meta hmax h1 h2
    unfold forensics_add_breadcrumb
    rw [if_neg hmax, if_pos ⟨h1, h2⟩]
  · intro cfg fuel s name meta w hmax hnc hlt halloc
    unfold forensics_add_breadcrumb
    rw [if_neg hmax, if_neg hnc]
    dsimp only
    rw [if_neg (by omega : ¬ s.count ≥ (cfg.max_breadcrumb_count : Int)), halloc]
  · intro cfg s name meta required w hidx
    unfold breadcrumb_commit
    dsimp only
    simp [List.getD, List.getElem?_set_self', hidx]

/-! ## Claim C7 (supporting lemmas) -/

theorem take_set_eq {α : Type} (l : List α) (i : Nat) (a : α) :
    (l.set i a).take i = l.take i := by
  induction l generalizing i with
  | nil => simp
  | cons x xs ih =>
    cases i with
    | zero => simp
    | succ j =>
      rw [List.set_cons_succ, List.take_succ_cons, List.take_succ_cons, ih]

theorem ctx_begin_overflow (b : CtxBuf) (n : String)
    (h : b.count + 1 > (b.capacity : Int)) :
    forensics_context_begin n b = { b with overflowCount := b.overflowCount + 1 } := by
  unfold forensics_context_begin
  rw [if_pos h]

theorem ctx_begin_push (b : CtxBuf) (n : String)
    (h : ¬ b.count + 1 > (b.capacity : Int)) :
    forensics_context_begin n b =
      { b with stack := b.stack.set b.count.toNat n, count := b.count + 1 } := by
  unfold forensics_context_begin
  rw [if_neg h]

theorem ctx_end_overflow (b : CtxBuf) (h : b.overflowCount > 0) :
    forensics_context_end b = ({ b with overflowCount := b.overflowCount - 1 }, false) := by
  unfold forensics_context_end
  rw [if_pos h]

theorem ctx_end_pop (b : CtxBuf) (h : ¬ b.overflowCount > 0) :
    forensics_context_end b =
      ({ b with count := b.count - 1 }, !(b.count > 0 : Bool)) := by
  unfold forensics_context_end
  rw [if_neg h]

theorem ctx_exec_append (l₁ l₂ : List CtxOp) : ∀ b : CtxBuf,
    ctx_exec b (l₁ ++ l₂) =
      ((ctx_exec (ctx_exec b l₁).1 l₂).1,
        (ctx_exec b l₁).2 || (ctx_exec (ctx_exec b l₁).1 l₂).2) := by
  induction l₁ with
  | nil => intro b; simp [ctx_exec]
  | cons op rest ih =>
    intro b
    cases op with
    | begin n =>
      show ctx_exec (forensics_context_begin n b) (rest ++ l₂) = _
      rw [ih (forensics_context_begin n b)]
      rfl
    | done =>
      show ((ctx_exec (forensics_context_end b).1 (rest ++ l₂)).1,
        (forensics_context_end b).2 ||
          (ctx_exec (forensics_context_end b).1 (rest ++ l₂)).2) = _
      rw [ih (forensics_context_end b).1]
      dsimp only
      rw [← Bool.or_assoc]
      rfl

/-- Main restoration lemma for C7: from any reachable buffer state, a
balanced begin/end sequence raises no underflow assertion and restores the
count, the overflow counter and the logical stack contents. -/
theorem ctx_balanced_restore {ops : List CtxOp} (hbal : Balanced ops) :
    ∀ b : CtxBuf, CtxInv b →
      (ctx_exec b ops).2 = false ∧
      (ctx_exec b ops).1.count = b.count ∧
      (ctx_exec b ops).1.overflowCount = b.overflowCount ∧
      (ctx_exec b ops).1.capacity = b.capacity ∧
      (ctx_exec b ops).1.stack.length = b.stack.length ∧
      ctxContents (ctx_exec b ops).1 = ctxContents b := by
  induction hbal with
  | nil =>
    intro b _
    exact ⟨rfl, rfl, rfl, rfl, rfl, rfl⟩
  | @append l₁ l₂ h1 h2 ih1 ih2 =>
    intro b hinv
    obtain ⟨f1, c1, o1, cap1, len1, ct1⟩ := ih1 b hinv
    have hinv1 : CtxInv (ctx_exec b l₁).1 := by
      obtain ⟨a1, a2, a3, a4⟩ := hinv
      exact ⟨by rw [c1]; exact a1, by rw [c1, cap1]; exact a2,
        by rw [o1, c1, cap1]; exact a3, by rw [len1, cap1]; exact a4⟩
    obtain ⟨f2, c2, o2, cap2, len2, ct2⟩ := ih2 (ctx_exec b l₁).1 hinv1
    rw [ctx_exec_append]
    exact ⟨by simp [f1, f2], by rw [c2, c1], by rw [o2, o1],
      by rw [cap2, cap1], by rw [len2, len1], by rw [ct2, ct1]⟩
  | @wrap n l hl ih =>
    intro b hinv
    obtain ⟨hc0, hccap, hov, hlen⟩ := hinv
    by_cases hfull : b.count + 1 > (b.capacity : Int)
    · -- at capacity: the begin only bumps the overflow counter and the
      -- closing end only decrements it back
      set bO : CtxBuf := { b with overflowCount := b.overflowCount + 1 } with hbO
      have hinvO : CtxInv bO :=
        ⟨hc0, hccap, fun _ => show b.count = (b.capacity : Int) by omega, hlen⟩
      obtain ⟨f2, c2, o2, cap2, len2, ct2⟩ := ih bO hinvO
      have o2' : (ctx_exec bO l).1.overflowCount = b.overflowCount + 1 := o2
      have hev : ctx_exec b (CtxOp.begin n :: l ++ [CtxOp.done]) =
          ((forensics_context_end (ctx_exec bO l).1).1,
            (ctx_exec bO l).2 ||
              ((forensics_context_end (ctx_exec bO l).1).2 || false)) := by
        rw [ctx_exec_append]
        have hstep : ctx_exec b (CtxOp.begin n :: l) = ctx_exec bO l := by
          show ctx_exec (forensics_context_begin n b) l = _
          rw [ctx_begin_overflow b n hfull, ← hbO]
        rw [hstep]
        rfl
      rw [hev, ctx_end_overflow _ (by omega)]
      refine ⟨?_, ?_, ?_, ?_, ?_, ?_⟩
      · show ((ctx_exec bO l).2 || (false || false)) = false
        rw [f2]
        rfl
      · exact c2
      · show (ctx_exec bO l).1.overflowCount - 1 = b.overflowCount
        omega
      · exact cap2
      · exact len2
      · exact ct2
    · -- below capacity: the begin writes at index `count` and the closing
      -- end pops it again
      have hov0 : b.overflowCount = 0 := by
        rcases Nat.eq_zero_or_pos b.overflowCount with h | h
        · exact h
        · exact absurd (hov h) (by omega)
      set bP : CtxBuf := { b with stack := b.stack.set b.count.toNat n, count := b.count + 1 } with hbP
      have hinvP : CtxInv bP := by
        refine ⟨?_, ?_, ?_, ?_⟩
        · show (0 : Int) ≤ b.count + 1
          omega
        · show b.count + 1 ≤ (b.capacity : Int)
          omega
        · intro h
          have hbPov : bP.overflowCount = b.overflowCount := rfl
          rw [hbPov] at h
          exact absurd h (by omega)
        · show (b.stack.set b.count.toNat n).length = b.capacity
          rw [List.length_set]
          exact hlen
      obtain ⟨f2, c2, o2, cap2, len2, ct2⟩ := ih bP hinvP
      have c2' : (ctx_exec bP l).1.count = b.count + 1 := c2
      have o2' : (ctx_exec bP l).1.overflowCount = b.overflowCount := o2
      have hev : ctx_exec b (CtxOp.begin n :: l ++ [CtxOp.done]) =
          ((forensics_context_end (ctx_exec bP l).1).1,
            (ctx_exec bP l).2 ||
              ((forensics_context_end (ctx_exec bP l).1).2 || false)) := by
        rw [ctx_exec_append]
        have hstep : ctx_exec b (CtxOp.begin n :: l) = ctx_exec bP l := by
          show ctx_exec (forensics_context_begin n b) l = _
          rw [ctx_begin_push b n hfull, ← hbP]
        rw [hstep]
        rfl
      rw [hev, ctx_end_pop _ (by omega : ¬ (ctx_exec bP l).1.overflowCount > 0)]
      have hpos : ((ctx_exec bP l).1.count > 0 : Bool) = true := by
        simp only [decide_eq_true_eq]
        omega
      refine ⟨?_, ?_, ?_, ?_, ?_, ?_⟩
      · show ((ctx_exec bP l).2 ||
          (!((ctx_exec bP l).1.count > 0 : Bool) || false)) = false
        rw [f2, hpos]
        rfl
      · show (ctx_exec bP l).1.count - 1 = b.count
        omega
      · exact o2'
      · exact cap2
      · have len2' : (ctx_exec bP l).1.stack.length =
            (b.stack.set b.count.toNat n).length := len2
        rw [List.length_set] at len2'
        exact len2'
      · show (ctx_exec bP l).1.stack.take (((ctx_exec bP l).1.count - 1).toNat) =
          b.stack.take b.count.toNat
        have ct2' : (ctx_exec bP l).1.stack.take ((ctx_exec bP l).1.count.toNat) =
            (b.stack.set b.count.toNat n).take (b.count + 1).toNat := ct2
        have htn : ((ctx_exec bP l).1.count - 1).toNat = b.count.toNat := by omega
        have hXcn : (ctx_exec bP l).1.count.toNat = b.count.toNat + 1 := by omega
        have htn2 : (b.count + 1).toNat = b.count.toNat + 1 := by omega
        rw [htn]
        have step1 : (ctx_exec bP l).1.stack.take b.count.toNat =
            ((ctx_exec bP l).1.stack.take (b.count.toNat + 1)).take b.count.toNat := by
          rw [List.take_take]
          congr 1
          omega
        rw [step1, ← hXcn, ct2', htn2, List.take_take,
          (by omega : b.count.toNat ⊓ (b.count.toNat + 1) = b.count.toNat)]
        exact take_set_eq b.stack b.count.toNat n

/-- C7: the per-thread context discipline.  A begin at capacity only
increments the overflow counter and stores nothing; an end with a positive
overflow counter only decrements it; from any reachable state a balanced
begin/end subsequence raises no assertion and restores the count, the
overflow counter and the logical stack contents (every store happening
strictly below `capacity`); and an end on an empty, non-overflowed stack
raises the underflow assertion flag instead of being silently ignored. -/
theorem c7_context_overflow_discipline :
    (∀ (b : CtxBuf) (n : String), b.count = (b.capacity : Int) →
      forensics_context_begin n b =
        { b with overflowCount := b.overflowCount + 1 }) ∧
    (∀ b : CtxBuf, 0 < b.overflowCount →
      forensics_context_end b =
        ({ b with overflowCount := b.overflowCount - 1 }, false)) ∧
    (∀ (ops : List CtxOp) (b : CtxBuf), Balanced ops → CtxInv b →
      (ctx_exec b ops).2 = false ∧
      (ctx_exec b ops).1.count = b.count ∧
      (ctx_exec b ops).1.overflowCount = b.overflowCount ∧
      ctxContents (ctx_exec b ops).1 = ctxContents b) ∧
    (∀ b : CtxBuf, b.count = 0 → b.overflowCount = 0 →
      (forensics_context_end b).2 = true) := by
  refine ⟨?_, ?_, ?_, ?_⟩
  · intro b n h
    exact ctx_begin_overflow b n (by omega)
  · intro b h
    exact ctx_end_overflow b h
  · intro ops b hbal hinv
    obtain ⟨f, c, o, _, _, ct⟩ := ctx_balanced_restore hbal b hinv
    exact ⟨f, c, o, ct⟩
  · intro b hc ho
    rw [ctx_end_pop b (by omega)]
    show (!(b.count > 0 : Bool)) = true
    simp only [hc]
    rfl

/-- Witness for C7: on a depth-1 stack, the balanced sequence
begin "a"; begin "b" (overflowing); end; end raises no assertion and
returns to the empty state. -/
theorem c7_context_overflow_discipline_witness :
    (ctx_exec ⟨0, 1, 0, [""]⟩
        [CtxOp.begin "a", CtxOp.begin "b", CtxOp.done, CtxOp.done]).2 = false ∧
    (ctx_exec ⟨0, 1, 0, [""]⟩
        [CtxOp.begin "a", CtxOp.begin "b", CtxOp.done, CtxOp.done]).1.count = 0 ∧
    (ctx_exec ⟨0, 1, 0, [""]⟩
        [CtxOp.begin "a", CtxOp.begin "b", CtxOp.done, CtxOp.done]).1.overflowCount = 0 ∧
    ctxContents (ctx_exec ⟨0, 1, 0, [""]⟩
        [CtxOp.begin "a", CtxOp.begin "b", CtxOp.done, CtxOp.done]).1 = [] := by
  have h := c7_context_overflow_discipline.2.2.1
    [CtxOp.begin "a", CtxOp.begin "b", CtxOp.done, CtxOp.done] ⟨0, 1, 0, [""]⟩
    (Balanced.wrap "a" (Balanced.wrap "b" Balanced.nil))
    ⟨by decide, by decide, fun h => absurd h (by decide), by decide⟩
  obtain ⟨f, c, o, ct⟩ := h
  exact ⟨f, c, o, by rw [ct]; rfl⟩

/-! ## Claim C6 witness -/

/-- Witness for C6: coalescing a repeated `("boot", {env: production})`
on the concrete post-first-add state. -/
theorem c6_breadcrumb_coalescing_witness :
    forensics_add_breadcrumb forensics_config_init 0 c6_s1
        "boot" [("env", "production")] =
      some ⟨(List.replicate 128 clearedCrumb).set 0
        ⟨"boot", [("env", "production")], 2, 36⟩, 1, 1, 0, 36⟩ := by
  have h := c6_breadcrumb_coalescing.1 forensics_config_init 0 c6_s1
    "boot" [("env", "production")] (by decide) (by decide) (by decide)
  rw [h]
  decide

end Forensics
